import Mathlib

/-!
Verification of the forward-additive image alignment engine
(`src/inc/imagealign/forward_additive.h`, class `AlignForwardAdditive`)
and of the warp abstraction it drives (`imagealign/warp.h`, exercised by
the unit tests in `src/unnamed/part_000`).

Shallow embedding conventions:
* intensities and warp parameters live in an arbitrary field `F`
  (instantiated at `ℚ` for executable witnesses and at `ℝ` for the
  Euclidean warp, whose source uses `cos`/`sin`);
* an image is a total function from pixel coordinates to `F`
  (`cv::Mat` of type `CV_32FC1`, indexed row `y` then column `x`);
* the bilinear resampler of `imagealign/bilinear.h` is an external
  collaborator of the engine, so `align` is parametrised by an abstract
  sampling function `sample img p`, and `warpImage src dst size w`
  becomes `fun y x => sample src (W.apply w (x, y))`, matching the
  resampler contract (sample the source at `warp(Point2f(x, y))`);
* the per-pixel accumulation loop of `align` is embedded as nested
  `List.foldl` over row and column indices, mirroring the two `for`
  loops of the source.
-/

namespace ImageAlign

/-- Single-channel real-valued image with `rows` rows and `cols` columns,
indexed row first (`img y x` is the pixel at row `y`, column `x`). -/
abbrev Image (rows cols : ℕ) (F : Type) := Fin rows → Fin cols → F

/-- Parameter vector of a warp with `n` parameters
(`cv::Matx<float, NParameters, 1>`). -/
abbrev Params (n : ℕ) (F : Type) := Fin n → F

/-- Capability surface of a warp as consumed by the alignment engine:
`apply` maps a 2-D point through the transform at the given parameters
(`w(p)` in the source), and `jacobian` is the zero-argument Jacobian
evaluation `w.jacobian()` that `align` performs once per call
(forward_additive.h line 131) — note it receives no point. -/
structure WarpOps (n : ℕ) (F : Type) where
  apply : Params n F → F × F → F × F
  jacobian : Params n F → Matrix (Fin 2) (Fin n) F

/-- Model of the external inversion primitive `cv::Matx::inv()`
(`cv::invert` with `DECOMP_LU`): the true inverse
`det⁻¹ • adjugate` when the determinant is nonzero, and the zero matrix
when the decomposition fails on a singular input (OpenCV zero-fills the
destination in that case). Over a field this function is extensionally
equal to Mathlib's nonsingular inverse, see `matInv_eq_inv`. -/
def matInv {n : ℕ} {F : Type} [Field F] [DecidableEq F]
    (A : Matrix (Fin n) (Fin n) F) : Matrix (Fin n) (Fin n) F :=
  if A.det = 0 then 0 else A.det⁻¹ • A.adjugate

/-- Session state of `AlignForwardAdditive` (members at
forward_additive.h lines 161-166, in source order): template and target
images, the scratch buffers `_warpedTarget` and `_errorImage`, the
precomputed target gradients `_gradX`/`_gradY`, and the warped-gradient
scratch buffers. The template and the scratch buffers share the
template size `rows × cols`; the target and its gradients have their
own size `trows × tcols`. -/
@[ext]
structure Engine (rows cols trows tcols : ℕ) (F : Type) where
  template : Image rows cols F
  target : Image trows tcols F
  warpedTarget : Image rows cols F
  errorImage : Image rows cols F
  gradX : Image trows tcols F
  gradY : Image trows tcols F
  warpedGradX : Image rows cols F
  warpedGradY : Image rows cols F

/-- Embedding of `AlignForwardAdditive::prepare` (forward_additive.h
lines 89-109). The Sobel derivative filter is an external collaborator,
so it is passed in as `sobelX`/`sobelY`; `prepare` stores the two images,
computes the target gradients and rescales them by the fixed
normalisation constant `0.125`. The scratch buffers are merely allocated
by the source (`cv::Mat::create`, contents unspecified until `align`
overwrites them); the embedding fills them with `0`. -/
def prepare {rows cols trows tcols : ℕ} {F : Type} [Field F]
    (sobelX sobelY : Image trows tcols F → Image trows tcols F)
    (tmpl : Image rows cols F) (target : Image trows tcols F) :
    Engine rows cols trows tcols F :=
  { template := tmpl
    target := target
    warpedTarget := fun _ _ => 0
    errorImage := fun _ _ => 0
    gradX := fun y x => 0.125 * sobelX target y x
    gradY := fun y x => 0.125 * sobelY target y x
    warpedGradX := fun _ _ => 0
    warpedGradY := fun _ _ => 0 }

/-- Result of one `align` call: the engine with its scratch buffers
rewritten, the updated warp parameter vector (the source mutates the
caller's warp in place through `setParameters`), and the returned
scalar (`cv::mean` of the error image). -/
structure AlignResult (rows cols trows tcols n : ℕ) (F : Type) where
  engine : Engine rows cols trows tcols F
  params : Params n F
  value : F

/-- Model of the external resampler `warpImage` of `imagealign/bilinear.h`
(an out-of-scope collaborator): resampling `img` into the template frame
under the point transform `applyW` places at destination pixel `(y, x)`
the sample of `img` at `applyW (Point2f(x, y))`, where `sample` is the
abstract interpolating sampler. -/
def warpedImage {rows cols trows tcols : ℕ} {F : Type} [Field F]
    (sample : Image trows tcols F → F × F → F) (applyW : F × F → F × F)
    (img : Image trows tcols F) : Image rows cols F :=
  fun y x => sample img (applyW (((x : ℕ) : F), ((y : ℕ) : F)))

/-- Accumulation loop of `align` (forward_additive.h lines 133-148):
starting from zero `hessian` and zero `sumSDITimesError`, iterate over
the template region row by row, column by column, form the per-pixel
steepest-descent row `sd = [gx, gy] · jacobian` and add `sdᵀ·sd` to the
Hessian and `sdᵀ · err` to the right-hand side. The accumulator pair is
`(hessian, sumSDITimesError)`. -/
def accumulate {rows cols n : ℕ} {F : Type} [Field F]
    (gx gy err : Image rows cols F) (J : Matrix (Fin 2) (Fin n) F) :
    Matrix (Fin n) (Fin n) F × Matrix (Fin n) (Fin 1) F :=
  (List.finRange rows).foldl (fun a y =>
    (List.finRange cols).foldl (fun a x =>
      let sd : Matrix (Fin 1) (Fin n) F := !![gx y x, gy y x] * J
      (a.1 + sd.transpose * sd, a.2 + err y x • sd.transpose)) a)
    ((0 : Matrix (Fin n) (Fin n) F), (0 : Matrix (Fin n) (Fin 1) F))

/-- Embedding of `AlignForwardAdditive::align` (forward_additive.h
lines 118-157), statement by statement: warp the target and the two
gradient images under the current parameters, form the error image
`template − warpedTarget`, evaluate the warp Jacobian once
(`w.jacobian()`, no point argument), accumulate the Hessian and
`sumSDITimesError` over the template region with the per-pixel
steepest-descent row `sd = [gx, gy] · jacobian`, solve
`delta = hessian.inv() * sumSDITimesError`, update the parameters
additively, and return the mean of the error image. -/
def align {rows cols trows tcols n : ℕ} {F : Type} [Field F] [DecidableEq F]
    (sample : Image trows tcols F → F × F → F) (W : WarpOps n F)
    (e : Engine rows cols trows tcols F) (w : Params n F) :
    AlignResult rows cols trows tcols n F :=
  let warpedTarget : Image rows cols F := warpedImage sample (W.apply w) e.target
  let warpedGradX : Image rows cols F := warpedImage sample (W.apply w) e.gradX
  let warpedGradY : Image rows cols F := warpedImage sample (W.apply w) e.gradY
  let errorImage : Image rows cols F :=
    fun y x => e.template y x - warpedTarget y x
  let jacobian : Matrix (Fin 2) (Fin n) F := W.jacobian w
  let acc := accumulate warpedGradX warpedGradY errorImage jacobian
  let delta : Matrix (Fin n) (Fin 1) F := matInv acc.1 * acc.2
  { engine :=
      { e with
        warpedTarget := warpedTarget
        warpedGradX := warpedGradX
        warpedGradY := warpedGradY
        errorImage := errorImage }
    params := fun i => w i + delta i 0
    value := (∑ y, ∑ x, errorImage y x) / ((rows * cols : ℕ) : F) }

/-! Specification-level forms of the quantities `align` computes.
These restate the buffers and accumulators of the source as closed
formulas (resampled images, per-pixel steepest-descent rows, `Finset`
sums for the normal equations, the arithmetic mean); `align_eq` below
proves the loop-based embedding equal to them. -/

/-- Error image of one `align` call: template minus target resampled
under the current warp parameters, elementwise. -/
def errorOf {rows cols trows tcols n : ℕ} {F : Type} [Field F]
    (sample : Image trows tcols F → F × F → F) (W : WarpOps n F)
    (e : Engine rows cols trows tcols F) (w : Params n F) : Image rows cols F :=
  fun y x => e.template y x - warpedImage sample (W.apply w) e.target y x

/-- Steepest-descent row actually used by `align` at pixel `(y, x)`:
the warped gradient pair at that pixel multiplied by the single
Jacobian value `W.jacobian w` obtained from the one per-call evaluation
(the same matrix for every pixel). -/
def sdImage {rows cols trows tcols n : ℕ} {F : Type} [Field F]
    (sample : Image trows tcols F → F × F → F) (W : WarpOps n F)
    (e : Engine rows cols trows tcols F) (w : Params n F)
    (y : Fin rows) (x : Fin cols) : Matrix (Fin 1) (Fin n) F :=
  !![warpedImage sample (W.apply w) e.gradX y x,
     warpedImage sample (W.apply w) e.gradY y x] * W.jacobian w

/-- Gauss-Newton Hessian of a steepest-descent field:
`Σ_p sd(p)ᵀ · sd(p)` over all template pixels. -/
def hessianOf {rows cols n : ℕ} {F : Type} [Field F]
    (sd : Fin rows → Fin cols → Matrix (Fin 1) (Fin n) F) :
    Matrix (Fin n) (Fin n) F :=
  ∑ y, ∑ x, (sd y x).transpose * sd y x

/-- Right-hand side of the normal equations:
`Σ_p sd(p)ᵀ · error(p)` over all template pixels. -/
def rhsOf {rows cols n : ℕ} {F : Type} [Field F]
    (sd : Fin rows → Fin cols → Matrix (Fin 1) (Fin n) F)
    (err : Image rows cols F) : Matrix (Fin n) (Fin 1) F :=
  ∑ y, ∑ x, err y x • (sd y x).transpose

/-- Plain arithmetic mean of an image (`cv::mean`): the sum of all
pixels divided by the pixel count. -/
def meanOf {rows cols : ℕ} {F : Type} [Field F] (img : Image rows cols F) : F :=
  (∑ y, ∑ x, img y x) / ((rows * cols : ℕ) : F)

/-- Folding `a + f i` over a list accumulates the sum of the mapped
list onto the initial accumulator. -/
theorem foldl_add_eq_sum {M α : Type} [AddCommMonoid M] (f : α → M) :
    ∀ (l : List α) (init : M),
      l.foldl (fun a i => a + f i) init = init + (l.map f).sum
  | [], init => by simp
  | i :: l, init => by
    simp only [List.foldl_cons, List.map_cons, List.sum_cons]
    rw [foldl_add_eq_sum f l, add_assoc]

/-- Folding `a + f i` over `List.finRange` adds the full `Finset` sum to
the initial accumulator. This is the bridge between the `for` loops of
the source and the `Σ` of the specification. -/
theorem foldl_add_finRange {M : Type} [AddCommMonoid M] (k : ℕ)
    (f : Fin k → M) (init : M) :
    (List.finRange k).foldl (fun a i => a + f i) init = init + ∑ i, f i := by
  rw [Fin.sum_univ_def]
  exact foldl_add_eq_sum f (List.finRange k) init

/-- The doubly nested accumulation loop of `align` equals the double
`Finset` sum of its per-pixel contributions. -/
theorem foldl_foldl_add {M : Type} [AddCommMonoid M] (R C : ℕ)
    (g : Fin R → Fin C → M) (init : M) :
    (List.finRange R).foldl (fun a y =>
      (List.finRange C).foldl (fun a x => a + g y x) a) init =
      init + ∑ y, ∑ x, g y x := by
  have h : (fun (a : M) (y : Fin R) =>
      (List.finRange C).foldl (fun a x => a + g y x) a) =
      fun a y => a + ∑ x, g y x := by
    funext a y
    exact foldl_add_finRange C (g y) a
  rw [h]
  exact foldl_add_finRange R (fun y => ∑ x, g y x) init

/-- The accumulation loop of `align` computes exactly the `Finset`-sum
Hessian and right-hand side of the Gauss-Newton normal equations. -/
theorem accumulate_eq {rows cols n : ℕ} {F : Type} [Field F]
    (gx gy err : Image rows cols F) (J : Matrix (Fin 2) (Fin n) F) :
    accumulate gx gy err J =
      (hessianOf (fun y x => !![gx y x, gy y x] * J),
       rhsOf (fun y x => !![gx y x, gy y x] * J) err) := by
  have hstep : ∀ (y : Fin rows)
      (a : Matrix (Fin n) (Fin n) F × Matrix (Fin n) (Fin 1) F) (x : Fin cols),
      (let sd : Matrix (Fin 1) (Fin n) F := !![gx y x, gy y x] * J
       (a.1 + sd.transpose * sd, a.2 + err y x • sd.transpose)) =
      a + ((!![gx y x, gy y x] * J).transpose * (!![gx y x, gy y x] * J),
           err y x • (!![gx y x, gy y x] * J).transpose) := by
    intro y a x
    obtain ⟨a1, a2⟩ := a
    simp [Prod.mk_add_mk]
  have h1 : accumulate gx gy err J =
      (List.finRange rows).foldl (fun a y =>
        (List.finRange cols).foldl (fun a x =>
          a + ((!![gx y x, gy y x] * J).transpose * (!![gx y x, gy y x] * J),
               err y x • (!![gx y x, gy y x] * J).transpose)) a)
        ((0 : Matrix (Fin n) (Fin n) F), (0 : Matrix (Fin n) (Fin 1) F)) := by
    unfold accumulate
    apply List.foldl_ext
    intro a y _
    apply List.foldl_ext
    intro a x _
    exact hstep y a x
  rw [h1, foldl_foldl_add rows cols
    (fun y x => ((!![gx y x, gy y x] * J).transpose * (!![gx y x, gy y x] * J),
                 err y x • (!![gx y x, gy y x] * J).transpose))]
  refine Prod.ext ?_ ?_
  · simp [Prod.fst_add, Prod.fst_sum, hessianOf]
  · simp [Prod.snd_add, Prod.snd_sum, rhsOf]

/-- Model of `cv::Matx::inv` agrees with Mathlib's nonsingular matrix
inverse over a field (both are `det⁻¹ • adjugate`, and both collapse to
the zero matrix on singular input). -/
theorem matInv_eq_inv {n : ℕ} {F : Type} [Field F] [DecidableEq F]
    (A : Matrix (Fin n) (Fin n) F) : matInv A = A⁻¹ := by
  rw [Matrix.inv_def, Ring.inverse_eq_inv]
  unfold matInv
  by_cases h : A.det = 0
  · simp [h]
  · simp [h]

/-- Evaluation of the modelled inversion primitive on 1×1 matrices: the
single entry is inverted (with `0⁻¹ = 0` covering the singular LU
failure case, matching the zero-filled output). -/
theorem matInv_fin_one {F : Type} [Field F] [DecidableEq F]
    (A : Matrix (Fin 1) (Fin 1) F) : matInv A 0 0 = (A 0 0)⁻¹ := by
  unfold matInv
  by_cases h : A.det = 0
  · rw [if_pos h]
    rw [Matrix.det_fin_one] at h
    simp [h]
  · rw [if_neg h]
    simp [Matrix.det_fin_one, Matrix.adjugate_fin_one]

/-- Characterisation of one `align` call: the scratch buffers are
rewritten to the resampled images and the error image, the parameters
receive the additive Gauss-Newton update `matInv(H) · rhs` built from
the shared per-call Jacobian, and the returned value is the mean of the
error image. Every claim about `align` is derived from this equation. -/
theorem align_eq {rows cols trows tcols n : ℕ} {F : Type} [Field F] [DecidableEq F]
    (sample : Image trows tcols F → F × F → F) (W : WarpOps n F)
    (e : Engine rows cols trows tcols F) (w : Params n F) :
    align sample W e w =
      { engine :=
          { e with
            warpedTarget := warpedImage sample (W.apply w) e.target
            warpedGradX := warpedImage sample (W.apply w) e.gradX
            warpedGradY := warpedImage sample (W.apply w) e.gradY
            errorImage := errorOf sample W e w }
        params := fun i => w i +
          (matInv (hessianOf (sdImage sample W e w)) *
            rhsOf (sdImage sample W e w) (errorOf sample W e w)) i 0
        value := meanOf (errorOf sample W e w) } := by
  simp only [align]
  rw [accumulate_eq]
  rfl

/-! Warp models. The warp classes live in `imagealign/warp.h`, which is
not part of the sources at hand; only their unit tests
(`src/unnamed/part_000`) and the engine that drives them are. The
definitions below are therefore modelled from the specification and are
consistent with every check the unit tests perform. -/

/-- Modelled from the spec: `Warp<WARP_TRANSLATION>::operator()` of the
missing `warp.h`, with parameter order `(t_x, t_y)`: the translation
warp maps `p` to `p + (t_x, t_y)`. Consistent with the
`warp-translational` test, which maps `(5, 5)` to `(15, 10)` under
parameters `(10, 5)`. -/
def translationApply (F : Type) [Field F] (t : Params 2 F) (p : F × F) : F × F :=
  (p.1 + t 0, p.2 + t 1)

/-- Modelled from the spec: `Warp<WARP_TRANSLATION>::jacobian(point)` of
the missing `warp.h`: the 2×2 identity matrix for every point and every
parameter value (translation is linear in its parameters and
point-independent). Consistent with the `warp-translational` test,
which checks the Jacobian at `(10, 10)` against the identity. -/
def translationJacobian (F : Type) [Field F] (t : Params 2 F) (p : F × F) :
    Matrix (Fin 2) (Fin 2) F := 1

/-- The translation warp packaged for the engine: `align` performs the
zero-argument Jacobian evaluation `w.jacobian()`, which for the
point-independent translation warp is the identity matrix. -/
def translationWarp (F : Type) [Field F] : WarpOps 2 F :=
  { apply := translationApply F
    jacobian := fun t => translationJacobian F t (0, 0) }

/-- Modelled from the spec: `setIdentity()` of the missing `warp.h` sets
every parameter to the neutral value zero (zero translation, zero
rotation). Consistent with both unit tests, which require every
parameter to equal `0.f` after `setIdentity()`. -/
def setIdentityParams (n : ℕ) (F : Type) [Field F] : Params n F := fun _ => 0

/-- Modelled from the spec: `Warp<WARP_EUCLIDEAN>::operator()` of the
missing `warp.h`, with parameter order `(t_x, t_y, θ)`: the Euclidean
warp maps `p` to `R(θ)·p + (t_x, t_y)` with
`R(θ) = [[cos θ, −sin θ], [sin θ, cos θ]]`. Consistent with the
`warp-euclidean` test. Stated over `ℝ` because the source uses the
real trigonometric functions. -/
noncomputable def euclideanApply (q : Params 3 ℝ) (p : ℝ × ℝ) : ℝ × ℝ :=
  (Real.cos (q 2) * p.1 - Real.sin (q 2) * p.2 + q 0,
   Real.sin (q 2) * p.1 + Real.cos (q 2) * p.2 + q 1)

/-- C7: the translation warp translates every point by `(t_x, t_y)`, and
the two concrete evaluations of the claim hold: translation parameters
`(10, 5)` map `(5, 5)` to `(15, 10)`, and Euclidean parameters
`(5, 5, π)` map `(10, 15)` to `(−5, −10)` — exactly in the real-valued
model, hence in particular within the claimed ≈1% tolerance. -/
theorem warp_apply_values :
    (∀ (t : Params 2 ℝ) (p : ℝ × ℝ), translationApply ℝ t p = (p.1 + t 0, p.2 + t 1)) ∧
    translationApply ℝ ![10, 5] (5, 5) = (15, 10) ∧
    euclideanApply ![5, 5, Real.pi] (10, 15) = (-5, -10) := by
  refine ⟨fun t p => rfl, ?_, ?_⟩
  · show ((5 : ℝ) + 10, (5 : ℝ) + 5) = (15, 10)
    norm_num
  · show ((Real.cos (Real.pi) * 10 - Real.sin (Real.pi) * 15 + 5 : ℝ),
          (Real.sin (Real.pi) * 10 + Real.cos (Real.pi) * 15 + 5 : ℝ)) = (-5, -10)
    rw [Real.cos_pi, Real.sin_pi]
    norm_num

/-- C8: the translation warp's Jacobian is the 2×2 identity matrix for
every point and every parameter value, both through the point-taking
form checked by the unit test and through the zero-argument evaluation
the engine performs. -/
theorem translation_jacobian_identity (F : Type) [Field F] :
    (∀ (t : Params 2 F) (p : F × F), translationJacobian F t p = 1) ∧
    (∀ (t : Params 2 F), (translationWarp F).jacobian t = 1) :=
  ⟨fun _ _ => rfl, fun _ => rfl⟩

/-- C9: identity law for both warp kinds of the repository: after
`setIdentity()` every parameter is zero and applying the warp fixes
every point (for the Euclidean warp because `cos 0 = 1`, `sin 0 = 0`). -/
theorem setIdentity_identity_law :
    (∀ i, setIdentityParams 2 ℝ i = 0) ∧
    (∀ p : ℝ × ℝ, translationApply ℝ (setIdentityParams 2 ℝ) p = p) ∧
    (∀ i, setIdentityParams 3 ℝ i = 0) ∧
    (∀ p : ℝ × ℝ, euclideanApply (setIdentityParams 3 ℝ) p = p) := by
  refine ⟨fun i => rfl, fun p => ?_, fun i => rfl, fun p => ?_⟩
  · show (p.1 + 0, p.2 + 0) = p
    simp
  · show (Real.cos 0 * p.1 - Real.sin 0 * p.2 + 0, Real.sin 0 * p.1 + Real.cos 0 * p.2 + 0) = p
    simp

/-- C1: a single `align` call performs exactly one forward-additive
Gauss-Newton step: it writes the error image
`template − (target resampled under the incoming parameters)`,
accumulates `Hessian = Σ_p sd(p)ᵀ·sd(p)` and `rhs = Σ_p sd(p)ᵀ·error(p)`
over all template pixels, and replaces the warp parameters by
`getParameters() + Hessian⁻¹·rhs`; the parameter equation determines the
whole final warp state, so nothing else of the warp is mutated. -/
theorem align_gauss_newton_step {rows cols trows tcols n : ℕ} {F : Type}
    [Field F] [DecidableEq F]
    (sample : Image trows tcols F → F × F → F) (W : WarpOps n F)
    (e : Engine rows cols trows tcols F) (w : Params n F) :
    (align sample W e w).engine.errorImage =
      (fun y x => e.template y x - warpedImage sample (W.apply w) e.target y x) ∧
    (align sample W e w).params = fun i => w i +
      ((hessianOf (sdImage sample W e w))⁻¹ *
        rhsOf (sdImage sample W e w) (errorOf sample W e w)) i 0 := by
  simp only [align_eq, matInv_eq_inv]
  exact ⟨rfl, trivial⟩

/-- C5: `align` returns the plain arithmetic mean of the signed error
image (sum of `template − resampledTarget` divided by the pixel count,
not an RMS or squared cost), where the error image is built from the
warp parameters as passed in — the formula mentions only the incoming
`w`, not the updated parameters. -/
theorem align_returns_mean_signed_error {rows cols trows tcols n : ℕ} {F : Type}
    [Field F] [DecidableEq F]
    (sample : Image trows tcols F → F × F → F) (W : WarpOps n F)
    (e : Engine rows cols trows tcols F) (w : Params n F) :
    (align sample W e w).value =
      (∑ y, ∑ x, (e.template y x - warpedImage sample (W.apply w) e.target y x)) /
        ((rows * cols : ℕ) : F) := by
  simp only [align_eq]
  rfl

/-- C6: frame condition of `align`: the stored template, target and the
two precomputed target-gradient buffers are unchanged; only the four
scratch buffers are rewritten (to the three resampled images and the
error image); consequently a subsequent `align` call on the returned
engine behaves exactly as on the original engine, whatever the scratch
buffers contained. -/
theorem align_frame {rows cols trows tcols n : ℕ} {F : Type}
    [Field F] [DecidableEq F]
    (sample : Image trows tcols F → F × F → F) (W : WarpOps n F)
    (e : Engine rows cols trows tcols F) (w : Params n F) :
    (align sample W e w).engine.template = e.template ∧
    (align sample W e w).engine.target = e.target ∧
    (align sample W e w).engine.gradX = e.gradX ∧
    (align sample W e w).engine.gradY = e.gradY ∧
    (align sample W e w).engine.warpedTarget = warpedImage sample (W.apply w) e.target ∧
    (align sample W e w).engine.warpedGradX = warpedImage sample (W.apply w) e.gradX ∧
    (align sample W e w).engine.warpedGradY = warpedImage sample (W.apply w) e.gradY ∧
    (align sample W e w).engine.errorImage = errorOf sample W e w ∧
    ∀ (v : Params n F), align sample W (align sample W e w).engine v = align sample W e v := by
  refine ⟨?_, ?_, ?_, ?_, ?_, ?_, ?_, ?_, ?_⟩ <;>
    simp only [align_eq]
  intro v
  rfl

/-- List of the entries of a parameter vector, in index order (used to
state that the parameter-vector length survives `align`). -/
def paramList {n : ℕ} {F : Type} (w : Params n F) : List F :=
  (List.finRange n).map w

/-- C10: the warp mutation performed by `align` is the single
`setParameters` call with argument `getParameters() + delta`, an
`NParameters`-entry vector: the updated parameter vector is exactly the
pointwise sum of the incoming parameters and the solved delta, and its
entry list still has length `NParameters`. -/
theorem align_preserves_parameter_length {rows cols trows tcols n : ℕ} {F : Type}
    [Field F] [DecidableEq F]
    (sample : Image trows tcols F → F × F → F) (W : WarpOps n F)
    (e : Engine rows cols trows tcols F) (w : Params n F) :
    (paramList (align sample W e w).params).length = n ∧
    (align sample W e w).params = fun i => w i +
      (matInv (hessianOf (sdImage sample W e w)) *
        rhsOf (sdImage sample W e w) (errorOf sample W e w)) i 0 := by
  constructor
  · simp [paramList]
  · simp only [align_eq]

/-- C3: `align` attempts the Hessian inversion unconditionally. Its
result type has no error outcome; even when the accumulated Hessian is
singular, `align` still returns the mean error and still performs the
additive parameter update with the very same unconditional formula, the
inversion primitive merely handing back its failure value (the
zero-filled matrix `cv::invert` produces when LU decomposition fails)
instead of reporting anything. -/
theorem align_unguarded_singular_hessian {rows cols trows tcols n : ℕ} {F : Type}
    [Field F] [DecidableEq F]
    (sample : Image trows tcols F → F × F → F) (W : WarpOps n F)
    (e : Engine rows cols trows tcols F) (w : Params n F)
    (hdet : (hessianOf (sdImage sample W e w)).det = 0) :
    (align sample W e w).value = meanOf (errorOf sample W e w) ∧
    (align sample W e w).params = (fun i => w i +
      (matInv (hessianOf (sdImage sample W e w)) *
        rhsOf (sdImage sample W e w) (errorOf sample W e w)) i 0) ∧
    matInv (hessianOf (sdImage sample W e w)) = 0 := by
  refine ⟨?_, ?_, ?_⟩
  · simp only [align_eq]
  · simp only [align_eq]
  · unfold matInv
    simp [hdet]

/-- C4: zero-error fixed point: if the target resampled under the
incoming warp parameters equals the template pixel for pixel, then the
error image is all zeros, the right-hand side of the normal equations
vanishes, the solved delta is zero, so `align` leaves the parameters
unchanged and returns `0`. -/
theorem align_zero_error_fixed_point {rows cols trows tcols n : ℕ} {F : Type}
    [Field F] [DecidableEq F]
    (sample : Image trows tcols F → F × F → F) (W : WarpOps n F)
    (e : Engine rows cols trows tcols F) (w : Params n F)
    (h : ∀ y x, warpedImage sample (W.apply w) e.target y x = e.template y x) :
    (align sample W e w).params = w ∧ (align sample W e w).value = 0 := by
  have herr : errorOf sample W e w = fun _ _ => 0 := by
    funext y x
    simp [errorOf, h y x]
  have hrhs : rhsOf (sdImage sample W e w) (errorOf sample W e w) = 0 := by
    rw [herr]
    simp [rhsOf]
  constructor
  · simp only [align_eq]
    funext i
    rw [hrhs, Matrix.mul_zero]
    simp
  · simp only [align_eq]
    rw [herr]
    simp [meanOf]

/-- All-zero sampler used by the concrete witnesses: every sample of any
image is `0` (a legitimate boundary policy of the external bilinear
sampler on all-zero images). -/
def sampleZero : Image 1 1 ℚ → ℚ × ℚ → ℚ := fun _ _ => 0

/-- Concrete 1×1 engine over `ℚ` used by the witnesses, obtained by
`prepare` from an all-zero template and target with the zero Sobel
response: every stored buffer is zero. -/
def engineZero : Engine 1 1 1 1 ℚ :=
  prepare (fun _ _ _ => 0) (fun _ _ _ => 0) (fun _ _ => 0) (fun _ _ => 0)

/-- Witness for C3: on the all-zero 1×1 engine with the translation
warp, the accumulated Hessian is singular (it is the zero 2×2 matrix),
and `align` nevertheless returns the mean error and performs the
parameter update with the unconditional formula. -/
theorem align_unguarded_singular_hessian_witness :
    (hessianOf (sdImage sampleZero (translationWarp ℚ) engineZero (fun _ => 0))).det = 0 ∧
    ((align sampleZero (translationWarp ℚ) engineZero (fun _ => 0)).value =
        meanOf (errorOf sampleZero (translationWarp ℚ) engineZero (fun _ => 0)) ∧
      (align sampleZero (translationWarp ℚ) engineZero (fun _ => 0)).params = (fun i => (0 : ℚ) +
        (matInv (hessianOf (sdImage sampleZero (translationWarp ℚ) engineZero (fun _ => 0))) *
          rhsOf (sdImage sampleZero (translationWarp ℚ) engineZero (fun _ => 0))
            (errorOf sampleZero (translationWarp ℚ) engineZero (fun _ => 0))) i 0) ∧
      matInv (hessianOf (sdImage sampleZero (translationWarp ℚ) engineZero (fun _ => 0))) = 0) :=
  ⟨by
    have hsd : ∀ y x, sdImage sampleZero (translationWarp ℚ) engineZero (fun _ => 0) y x = 0 := by
      intro y x
      funext i j
      simp [sdImage, warpedImage, sampleZero, Matrix.mul_apply, Fin.sum_univ_two]
    simp [hessianOf, hsd],
   align_unguarded_singular_hessian sampleZero (translationWarp ℚ) engineZero (fun _ => 0)
     (by
       have hsd : ∀ y x, sdImage sampleZero (translationWarp ℚ) engineZero (fun _ => 0) y x = 0 := by
         intro y x
         funext i j
         simp [sdImage, warpedImage, sampleZero, Matrix.mul_apply, Fin.sum_univ_two]
       simp [hessianOf, hsd])⟩

/-- Witness for C4: on the all-zero 1×1 engine the resampled target
trivially equals the template, and `align` with the translation warp
leaves the (zero) parameters unchanged and returns `0`. -/
theorem align_zero_error_fixed_point_witness :
    (align sampleZero (translationWarp ℚ) engineZero (fun _ => 0)).params = (fun _ => 0) ∧
    (align sampleZero (translationWarp ℚ) engineZero (fun _ => 0)).value = 0 :=
  align_zero_error_fixed_point sampleZero (translationWarp ℚ) engineZero (fun _ => 0)
    (fun y x => rfl)

/-- Formalisation of the words of claim C2 (refinement comparison
only, deliberately not translated from the source): the parameter
update `align` would perform if, as the claim states, every pixel's
steepest-descent row used the warp Jacobian evaluated at that pixel's
own point, `sd(p) = [gradX(p), gradY(p)] · jacobian(p)`. -/
def alignPerPixelParams {rows cols trows tcols n : ℕ} {F : Type}
    [Field F] [DecidableEq F]
    (sample : Image trows tcols F → F × F → F)
    (applyW : Params n F → F × F → F × F)
    (jacobianAt : Params n F → F × F → Matrix (Fin 2) (Fin n) F)
    (e : Engine rows cols trows tcols F) (w : Params n F) : Params n F :=
  let gx : Image rows cols F := warpedImage sample (applyW w) e.gradX
  let gy : Image rows cols F := warpedImage sample (applyW w) e.gradY
  let err : Image rows cols F :=
    fun y x => e.template y x - warpedImage sample (applyW w) e.target y x
  let sd : Fin rows → Fin cols → Matrix (Fin 1) (Fin n) F :=
    fun y x => !![gx y x, gy y x] * jacobianAt w (((x : ℕ) : F), ((y : ℕ) : F))
  let delta : Matrix (Fin n) (Fin 1) F := matInv (hessianOf sd) * rhsOf sd err
  fun i => w i + delta i 0

/-- Per-point Jacobian of the warp used to refute claim C2: at point
`p` the column `(p.1 + 1, 0)`, so pixels in different columns have
different Jacobians. -/
def cexJacobianAt (w : Params 1 ℚ) (p : ℚ × ℚ) : Matrix (Fin 2) (Fin 1) ℚ :=
  !![p.1 + 1; 0]

/-- Point-dependent one-parameter warp instance used to refute claim
C2. Its per-point Jacobian `cexJacobianAt` genuinely varies with the
point; the zero-argument `jacobian()` the engine calls hands back the
value at the origin. -/
def cexWarp : WarpOps 1 ℚ :=
  { apply := fun _ p => p
    jacobian := fun w => cexJacobianAt w (0, 0) }

/-- Concrete 1×2 engine over `ℚ` for the C2 counterexample: template is
the column index, target is zero, the x-gradient is constantly one. -/
def cexEngine : Engine 1 2 1 2 ℚ :=
  { template := fun _ x => ((x : ℕ) : ℚ)
    target := fun _ _ => 0
    warpedTarget := fun _ _ => 0
    errorImage := fun _ _ => 0
    gradX := fun _ _ => 1
    gradY := fun _ _ => 0
    warpedGradX := fun _ _ => 0
    warpedGradY := fun _ _ => 0 }

/-- Top-left lookup sampler for the C2 counterexample (samples every
point at pixel `(0, 0)` of the source image). -/
def cexSample : Image 1 2 ℚ → ℚ × ℚ → ℚ := fun img _ => img 0 0

/-- Counterexample to C2 as stated: on a concrete 1×2 image with a
point-dependent warp, the parameter update `align` actually performs
(first entry `1/2`, from the single shared `jacobian()` value) differs
from the update the claim describes (first entry `2/5`, from per-pixel
Jacobians): pixels do not use the Jacobian evaluated at their own
point. -/
theorem align_per_pixel_jacobian_refuted :
    (align cexSample cexWarp cexEngine (fun _ => 0)).params 0 ≠
      alignPerPixelParams cexSample cexWarp.apply cexJacobianAt cexEngine (fun _ => 0) 0 := by
  have hHgen : ∀ (v : Fin 2 → ℚ) (sd : Fin 1 → Fin 2 → Matrix (Fin 1) (Fin 1) ℚ),
      (∀ y x, sd y x = !![v x]) → hessianOf sd 0 0 = v 0 * v 0 + v 1 * v 1 := by
    intro v sd hsd
    simp [hessianOf, hsd, Matrix.sum_apply, Matrix.mul_apply, Matrix.transpose_apply,
      Fin.sum_univ_two]
  have hrgen : ∀ (v : Fin 2 → ℚ) (sd : Fin 1 → Fin 2 → Matrix (Fin 1) (Fin 1) ℚ)
      (err : Image 1 2 ℚ), (∀ y x, sd y x = !![v x]) →
      rhsOf sd err 0 0 = err 0 0 * v 0 + err 0 1 * v 1 := by
    intro v sd err hsd
    simp [rhsOf, hsd, Matrix.sum_apply, Matrix.smul_apply, Matrix.transpose_apply,
      Fin.sum_univ_two, mul_comm]
  have hcode : (align cexSample cexWarp cexEngine (fun _ => 0)).params 0 = 1 / 2 := by
    simp only [align_eq]
    rw [Matrix.mul_apply, Fin.sum_univ_one, matInv_fin_one]
    rw [hHgen (fun _ => 1) _ (by
      intro y x
      funext i j
      fin_cases i
      fin_cases j
      norm_num [sdImage, warpedImage, cexSample, cexEngine, cexWarp, cexJacobianAt,
        Matrix.mul_apply, Fin.sum_univ_two])]
    rw [hrgen (fun _ => 1) _ _ (by
      intro y x
      funext i j
      fin_cases i
      fin_cases j
      norm_num [sdImage, warpedImage, cexSample, cexEngine, cexWarp, cexJacobianAt,
        Matrix.mul_apply, Fin.sum_univ_two])]
    norm_num [errorOf, warpedImage, cexSample, cexEngine, cexWarp]
  have hclaim :
      alignPerPixelParams cexSample cexWarp.apply cexJacobianAt cexEngine (fun _ => 0) 0 = 2 / 5 := by
    simp only [alignPerPixelParams]
    rw [Matrix.mul_apply, Fin.sum_univ_one, matInv_fin_one]
    rw [hHgen (fun x => ((x : ℕ) : ℚ) + 1) _ (by
      intro y x
      funext i j
      fin_cases i
      fin_cases j
      fin_cases x <;>
        norm_num [warpedImage, cexSample, cexEngine, cexWarp, cexJacobianAt,
          Matrix.mul_apply, Fin.sum_univ_two])]
    rw [hrgen (fun x => ((x : ℕ) : ℚ) + 1) _ _ (by
      intro y x
      funext i j
      fin_cases i
      fin_cases j
      fin_cases x <;>
        norm_num [warpedImage, cexSample, cexEngine, cexWarp, cexJacobianAt,
          Matrix.mul_apply, Fin.sum_univ_two])]
    norm_num [warpedImage, cexSample, cexEngine, cexWarp]
  rw [hcode, hclaim]
  norm_num

/-- Congruence of `align` in the warp argument: the engine only ever
consumes the point transform and the Jacobian at the current
parameters, so warps agreeing there produce identical results. -/
theorem align_congr {rows cols trows tcols n : ℕ} {F : Type}
    [Field F] [DecidableEq F]
    (sample : Image trows tcols F → F × F → F) (W' W : WarpOps n F)
    (e : Engine rows cols trows tcols F) (w : Params n F)
    (h1 : W'.apply w = W.apply w) (h2 : W'.jacobian w = W.jacobian w) :
    align sample W' e w = align sample W e w := by
  unfold align
  rw [h1, h2]

/-- C2 (amended): the warp Jacobian is evaluated exactly once per
`align` call, at the current parameters and with no point argument, and
every pixel's steepest-descent row is
`sd(p) = [gradX(p), gradY(p)] · J` with that one shared matrix `J`;
consequently the result of `align` depends on the warp's Jacobian data
only through the single value `W.jacobian w`. -/
theorem align_shared_jacobian {rows cols trows tcols n : ℕ} {F : Type}
    [Field F] [DecidableEq F]
    (sample : Image trows tcols F → F × F → F) (W : WarpOps n F)
    (e : Engine rows cols trows tcols F) (w : Params n F) :
    (align sample W e w).params = (fun i => w i +
      (matInv (hessianOf (fun (y : Fin rows) (x : Fin cols) =>
          !![warpedImage sample (W.apply w) e.gradX y x,
             warpedImage sample (W.apply w) e.gradY y x] * W.jacobian w)) *
        rhsOf (fun (y : Fin rows) (x : Fin cols) =>
          !![warpedImage sample (W.apply w) e.gradX y x,
             warpedImage sample (W.apply w) e.gradY y x] * W.jacobian w)
          (errorOf sample W e w)) i 0) ∧
    (∀ (W' : WarpOps n F), W'.apply = W.apply → W'.jacobian w = W.jacobian w →
      align sample W' e w = align sample W e w) := by
  constructor
  · simp only [align_eq]
    rfl
  · intro W' h1 h2
    exact align_congr sample W' W e w (by rw [h1]) h2

/-- Variant of `cexWarp` whose zero-argument Jacobian is written as the
literal matrix rather than through `cexJacobianAt`; used to witness
that `align` only consumes the single Jacobian value. -/
def cexWarpAlt : WarpOps 1 ℚ :=
  { apply := fun _ p => p
    jacobian := fun _ => !![1; 0] }

/-- Witness for the amended C2: two warps with the same point transform
and the same single Jacobian value at the current parameters produce
identical `align` results on a concrete input. -/
theorem align_shared_jacobian_witness :
    align cexSample cexWarpAlt cexEngine (fun _ => 0) =
      align cexSample cexWarp cexEngine (fun _ => 0) :=
  (align_shared_jacobian cexSample cexWarp cexEngine (fun _ => 0)).2 cexWarpAlt rfl (by
    funext i j
    fin_cases i <;> fin_cases j <;>
      simp [cexWarpAlt, cexWarp, cexJacobianAt])

end ImageAlign
